import Mathlib

/-!
Verification of `src/beacon_node/eth2-libp2p/src/rpc/mod.rs` from
shupcode/lighthouse: the libp2p RPC dispatch controller (`Rpc`).

The Rust module keeps a `Vec` of `NetworkBehaviourAction` values; every
entry point pushes at most one action to the back, and `poll` removes
the element at index 0. We embed the module state and each operation as
pure Lean functions and prove the spec's claims about them.

External collaborator types (`PeerId`, `Multiaddr`, the payloads
`RPCRequest`/`RPCResponse` defined in `methods.rs`/`protocol.rs`) are
opaque to this module: no operation here inspects their contents, so we
model each as a wrapper around `Nat` to stay executable. The `u64`
correlation id is modelled as a `Nat`; the module performs no arithmetic
on it, so no wrap-around is observable. The `PhantomData` marker and the
`slog::Logger` field carry no protocol-relevant state and are dropped.
-/

/-- A remote network participant identifier (external `libp2p::PeerId`,
opaque to this module). -/
structure PeerId where
  pid : Nat
deriving DecidableEq, Repr

/-- A network address (external `libp2p::Multiaddr`, opaque to this
module). -/
structure Multiaddr where
  addr : Nat
deriving DecidableEq, Repr

/-- Request payload (`RPCRequest` from `protocol.rs`, not inspected by
`mod.rs`; opaque payload). -/
structure RPCRequest where
  payload : Nat
deriving DecidableEq, Repr

/-- Response payload (`RPCResponse` from `methods.rs`, not inspected by
`mod.rs`; opaque payload). -/
structure RPCResponse where
  payload : Nat
deriving DecidableEq, Repr

/-- `enum RPCEvent`: a request or response of the RPC protocol. The
first parameter is the `u64` correlation id (modelled as `Nat`; the
module never computes with it). -/
inductive RPCEvent where
  | Request : Nat → RPCRequest → RPCEvent
  | Response : Nat → RPCResponse → RPCEvent
deriving DecidableEq, Repr

/-- `enum RPCMessage`: messages sent to the user from the RPC
behaviour. -/
inductive RPCMessage where
  | RPC : PeerId → RPCEvent → RPCMessage
  | PeerDialed : PeerId → RPCMessage
deriving DecidableEq, Repr

/-- `enum HandlerEvent`: the output type received from the
`OneShotHandler`; either a received RPC event or a send
acknowledgement. -/
inductive HandlerEvent where
  | Rx : RPCEvent → HandlerEvent
  | Sent : HandlerEvent
deriving DecidableEq, Repr

/-- `libp2p::core::swarm::ConnectedPoint`: the direction of an
established connection. `Dialer` means this process initiated the
connection; `Listener` means the remote did. The address fields are
opaque (`mod.rs` matches `Dialer { .. }` ignoring them). -/
inductive ConnectedPoint where
  | Dialer : Multiaddr → ConnectedPoint
  | Listener : Multiaddr → Multiaddr → ConnectedPoint
deriving DecidableEq, Repr

/-- `libp2p::core::swarm::NetworkBehaviourAction<RPCEvent, RPCMessage>`,
restricted to the two variants this module constructs: `SendEvent`
(deliver an event to the handler of a peer) and `GenerateEvent` (emit a
message upward to the user). -/
inductive NetworkBehaviourAction where
  | SendEvent : PeerId → RPCEvent → NetworkBehaviourAction
  | GenerateEvent : RPCMessage → NetworkBehaviourAction
deriving DecidableEq, Repr

/-- `struct Rpc<TSubstream>`: the behaviour state. Only the `events`
queue is protocol-relevant; `marker : PhantomData` and `_log` are
dropped. -/
structure Rpc where
  events : List NetworkBehaviourAction
deriving DecidableEq, Repr

/-- `Rpc::new`: constructs the behaviour with an empty event queue (the
logger argument only configures `_log` and is dropped). -/
def Rpc.new : Rpc :=
  { events := [] }

/-- `Rpc::send_rpc`: pushes `SendEvent { peer_id, event }` onto the back
of the queue, unconditionally. -/
def Rpc.send_rpc (self : Rpc) (peer_id : PeerId) (rpc_event : RPCEvent) : Rpc :=
  { self with events := self.events ++ [NetworkBehaviourAction.SendEvent peer_id rpc_event] }

/-- `Rpc::addresses_of_peer`: returns `Vec::new()` and does not touch
the state (address resolution is handled by discovery). We return the
(unchanged) state alongside the result to make the frame condition
explicit, mirroring the `&mut self` receiver. -/
def Rpc.addresses_of_peer (self : Rpc) (_peer_id : PeerId) : List Multiaddr × Rpc :=
  ([], self)

/-- `Rpc::inject_connected`: if the connection point is `Dialer { .. }`
(this process dialed), pushes `GenerateEvent(PeerDialed(peer_id))`;
otherwise does nothing. -/
def Rpc.inject_connected (self : Rpc) (peer_id : PeerId) (connected_point : ConnectedPoint) : Rpc :=
  match connected_point with
  | ConnectedPoint.Dialer _ =>
      { self with
        events := self.events ++
          [NetworkBehaviourAction.GenerateEvent (RPCMessage.PeerDialed peer_id)] }
  | ConnectedPoint.Listener _ _ => self

/-- `Rpc::inject_disconnected`: empty body, a no-op. -/
def Rpc.inject_disconnected (self : Rpc) (_peer_id : PeerId) (_cp : ConnectedPoint) : Rpc :=
  self

/-- `Rpc::inject_node_event`: a `Sent` handler event returns early with
no action; an `Rx(event)` handler event pushes
`GenerateEvent(RPC(source, event))`. -/
def Rpc.inject_node_event (self : Rpc) (source : PeerId) (event : HandlerEvent) : Rpc :=
  match event with
  | HandlerEvent.Sent => self
  | HandlerEvent.Rx ev =>
      { self with
        events := self.events ++
          [NetworkBehaviourAction.GenerateEvent (RPCMessage.RPC source ev)] }

/-- `Rpc::poll`: if the queue is non-empty, removes the element at
index 0 (`events.remove(0)`) and returns `Async::Ready` of it; otherwise
returns `Async::NotReady`. `Ready a` is modelled as `some a` and
`NotReady` as `none`. -/
def Rpc.poll (self : Rpc) : Rpc × Option NetworkBehaviourAction :=
  match self.events with
  | [] => (self, none)
  | a :: rest => ({ self with events := rest }, some a)

/-- `impl From<RPCEvent> for HandlerEvent`: wraps the event in `Rx`. -/
def HandlerEvent.fromRPCEvent (rpc : RPCEvent) : HandlerEvent :=
  HandlerEvent.Rx rpc

/-- `impl From<()> for HandlerEvent`: always yields `Sent`. -/
def HandlerEvent.fromUnit (_ : Unit) : HandlerEvent :=
  HandlerEvent.Sent

/-! ### A small-step operation machine over the controller

To state the FIFO ordering claim over arbitrary operation sequences we
give the host's entry points as an operation alphabet and run a list of
operations from a state, collecting the actions that `poll` returns. -/

/-- One host-invoked operation on the controller. -/
inductive Op where
  | opSendRpc : PeerId → RPCEvent → Op
  | opConnected : PeerId → ConnectedPoint → Op
  | opDisconnected : PeerId → ConnectedPoint → Op
  | opNodeEvent : PeerId → HandlerEvent → Op
  | opPoll : Op
deriving DecidableEq, Repr

/-- Apply one operation: the next state, and the action `poll` returned
(if the operation was a successful poll). -/
def Op.apply (r : Rpc) : Op → Rpc × Option NetworkBehaviourAction
  | Op.opSendRpc p e => (r.send_rpc p e, none)
  | Op.opConnected p cp => (r.inject_connected p cp, none)
  | Op.opDisconnected p cp => (r.inject_disconnected p cp, none)
  | Op.opNodeEvent p ev => (r.inject_node_event p ev, none)
  | Op.opPoll => r.poll

/-- The actions an operation appends to the queue, read off from the
`push` calls in the source: `send_rpc` always pushes one `SendEvent`;
`inject_connected` pushes one `GenerateEvent (PeerDialed _)` exactly in
the `Dialer` case; `inject_node_event` pushes one
`GenerateEvent (RPC _ _)` exactly in the `Rx` case; `inject_disconnected`
and `poll` push nothing. -/
def Op.enqueued : Op → List NetworkBehaviourAction
  | Op.opSendRpc p e => [NetworkBehaviourAction.SendEvent p e]
  | Op.opConnected p (ConnectedPoint.Dialer _) =>
      [NetworkBehaviourAction.GenerateEvent (RPCMessage.PeerDialed p)]
  | Op.opConnected _ (ConnectedPoint.Listener _ _) => []
  | Op.opDisconnected _ _ => []
  | Op.opNodeEvent p (HandlerEvent.Rx e) =>
      [NetworkBehaviourAction.GenerateEvent (RPCMessage.RPC p e)]
  | Op.opNodeEvent _ HandlerEvent.Sent => []
  | Op.opPoll => []

/-- Run a list of operations from a state, returning the final state and
the list of actions the interspersed `poll` calls returned, oldest
first. -/
def runOps (r : Rpc) : List Op → Rpc × List NetworkBehaviourAction
  | [] => (r, [])
  | op :: ops =>
      match Op.apply r op with
      | (r1, none) => runOps r1 ops
      | (r1, some a) =>
          match runOps r1 ops with
          | (r2, outs) => (r2, a :: outs)

/-- Each operation leaves the existing queue contents in place and
appends exactly `Op.enqueued`, except `opPoll`, which removes the head
of the queue (if any) and appends nothing. -/
theorem apply_events_eq (r : Rpc) (op : Op) :
    (Op.apply r op).1.events =
      (if op = Op.opPoll then r.events.tail else r.events) ++ Op.enqueued op := by
  cases op with
  | opSendRpc p e => simp [Op.apply, Op.enqueued, Rpc.send_rpc]
  | opConnected p cp =>
      cases cp <;> simp [Op.apply, Op.enqueued, Rpc.inject_connected]
  | opDisconnected p cp => simp [Op.apply, Op.enqueued, Rpc.inject_disconnected]
  | opNodeEvent p ev =>
      cases ev <;> simp [Op.apply, Op.enqueued, Rpc.inject_node_event]
  | opPoll =>
      cases h : r.events with
      | nil => simp [Op.apply, Op.enqueued, Rpc.poll, h]
      | cons a rest => simp [Op.apply, Op.enqueued, Rpc.poll, h]

/-- What a poll step returns and leaves behind, by case on the queue. -/
theorem poll_cases (r : Rpc) :
    (r.events = [] ∧ r.poll = (r, none)) ∨
      ∃ a rest, r.events = a :: rest ∧
        r.poll = ({ events := rest }, some a) := by
  cases h : r.events with
  | nil =>
      left
      refine ⟨rfl, ?_⟩
      simp [Rpc.poll, h]
  | cons a rest =>
      right
      exact ⟨a, rest, rfl, by simp [Rpc.poll, h]⟩

/-- Core FIFO invariant: after running any operation sequence, the
actions returned by the polls followed by the remaining queue equal the
starting queue followed by everything enqueued, in operation order. -/
theorem runOps_fifo (ops : List Op) (r : Rpc) :
    (runOps r ops).2 ++ (runOps r ops).1.events =
      r.events ++ ops.flatMap Op.enqueued := by
  induction ops generalizing r with
  | nil => simp [runOps]
  | cons op ops ih =>
      cases op with
      | opSendRpc p e =>
          simp only [runOps, Op.apply, List.flatMap_cons]
          rw [ih]
          simp [Rpc.send_rpc, Op.enqueued]
      | opConnected p cp =>
          cases cp with
          | Dialer a =>
              simp only [runOps, Op.apply, List.flatMap_cons]
              rw [ih]
              simp [Rpc.inject_connected, Op.enqueued]
          | Listener a b =>
              simp only [runOps, Op.apply, List.flatMap_cons]
              rw [ih]
              simp [Rpc.inject_connected, Op.enqueued]
      | opDisconnected p cp =>
          simp only [runOps, Op.apply, List.flatMap_cons]
          rw [ih]
          simp [Rpc.inject_disconnected, Op.enqueued]
      | opNodeEvent p ev =>
          cases ev with
          | Rx e =>
              simp only [runOps, Op.apply, List.flatMap_cons]
              rw [ih]
              simp [Rpc.inject_node_event, Op.enqueued]
          | Sent =>
              simp only [runOps, Op.apply, List.flatMap_cons]
              rw [ih]
              simp [Rpc.inject_node_event, Op.enqueued]
      | opPoll =>
          obtain ⟨evs⟩ := r
          cases evs with
          | nil =>
              simp only [runOps, Op.apply, Rpc.poll, List.flatMap_cons]
              rw [ih]
              simp [Op.enqueued]
          | cons a rest =>
              simp only [runOps, Op.apply, Rpc.poll, List.flatMap_cons]
              rw [List.cons_append, ih]
              simp [Op.enqueued]

/-! ### Claim theorems -/

/-- Claim C1: for every sequence of operations on a controller started
from `Rpc.new`, the actions returned by the interspersed `poll` calls,
followed by what is still queued, are exactly the actions enqueued by
`send_rpc`, `inject_connected` and `inject_node_event` in invocation
order — strict FIFO with no priority between outbound sends
(`SendEvent`) and upward emissions (`GenerateEvent`); moreover each
`poll` on a non-empty queue removes and returns exactly the oldest
queued action. -/
theorem poll_strict_fifo :
    (∀ ops : List Op,
        (runOps Rpc.new ops).2 ++ (runOps Rpc.new ops).1.events =
          ops.flatMap Op.enqueued) ∧
    (∀ (a : NetworkBehaviourAction) (rest : List NetworkBehaviourAction),
        Rpc.poll { events := a :: rest } = ({ events := rest }, some a)) := by
  constructor
  · intro ops
    have h := runOps_fifo ops Rpc.new
    simpa [Rpc.new] using h
  · intro a rest
    rfl

/-- Claim C2: `inject_node_event` with a `Sent` outcome enqueues nothing
and leaves the whole state unchanged, while an `Rx e` outcome appends
exactly one `GenerateEvent (RPC source e)` with the event `e` — and in
particular its correlation id — preserved unchanged. -/
theorem inject_node_event_spec :
    (∀ (r : Rpc) (p : PeerId),
        r.inject_node_event p HandlerEvent.Sent = r) ∧
    (∀ (r : Rpc) (p : PeerId) (e : RPCEvent),
        (r.inject_node_event p (HandlerEvent.Rx e)).events =
          r.events ++ [NetworkBehaviourAction.GenerateEvent (RPCMessage.RPC p e)]) ∧
    (∀ (r : Rpc) (p : PeerId) (i : Nat) (y : RPCResponse),
        (r.inject_node_event p (HandlerEvent.Rx (RPCEvent.Response i y))).events =
          r.events ++
            [NetworkBehaviourAction.GenerateEvent
              (RPCMessage.RPC p (RPCEvent.Response i y))]) := by
  refine ⟨fun r p => rfl, fun r p e => rfl, fun r p i y => rfl⟩

/-- Claim C3: `inject_connected` with a `Dialer` connection point
(outbound) appends exactly one `GenerateEvent (PeerDialed peer)`, and
with a `Listener` connection point (inbound) enqueues nothing and leaves
the state unchanged. -/
theorem inject_connected_spec :
    (∀ (r : Rpc) (p : PeerId) (addr : Multiaddr),
        (r.inject_connected p (ConnectedPoint.Dialer addr)).events =
          r.events ++
            [NetworkBehaviourAction.GenerateEvent (RPCMessage.PeerDialed p)]) ∧
    (∀ (r : Rpc) (p : PeerId) (la sb : Multiaddr),
        r.inject_connected p (ConnectedPoint.Listener la sb) = r) := by
  exact ⟨fun r p addr => rfl, fun r p la sb => rfl⟩

/-- Claim C4: `send_rpc` appends exactly one `SendEvent peer event` to
the end of the queue, for every state, peer and event — there is no
connectivity check, so the append happens unconditionally. -/
theorem send_rpc_spec :
    ∀ (r : Rpc) (p : PeerId) (e : RPCEvent),
      (r.send_rpc p e).events =
        r.events ++ [NetworkBehaviourAction.SendEvent p e] := by
  intro r p e
  rfl

/-- Claim C5: `poll` on the empty-queue controller returns `none`
(`Async::NotReady`) and an unchanged state, and iterating the poll step
any number of times on an empty queue leaves the state unchanged
(idempotence of repeated polls). Since `Rpc` consists solely of its
queue, `{ events := [] }` is the unique empty-queue state. -/
theorem poll_empty_spec :
    Rpc.poll { events := [] } = ({ events := [] }, none) ∧
    (∀ n : Nat,
        (fun r : Rpc => (r.poll).1)^[n] { events := [] } = { events := [] }) ∧
    (∀ n : Nat,
        ((fun r : Rpc => (r.poll).1)^[n] { events := [] }).poll =
          ({ events := [] }, none)) := by
  refine ⟨rfl, fun n => ?_, fun n => ?_⟩
  · exact Function.iterate_fixed rfl n
  · rw [Function.iterate_fixed rfl n]
    rfl

/-- Claim C6: `inject_disconnected` is a no-op — the entire controller
state, including the action queue, is returned unchanged for every peer
and connection point; no cleanup or notification happens. -/
theorem inject_disconnected_spec :
    ∀ (r : Rpc) (p : PeerId) (cp : ConnectedPoint),
      r.inject_disconnected p cp = r := by
  intro r p cp
  rfl

/-- Claim C7: `Rpc.new` has an empty action queue, so the first `poll`
on a freshly created controller returns `none` (`Async::NotReady`). -/
theorem new_spec :
    Rpc.new.events = [] ∧ Rpc.new.poll = (Rpc.new, none) := by
  exact ⟨rfl, rfl⟩

/-- Claim C8: `addresses_of_peer` returns the empty address list for
every peer and leaves the controller state unchanged. -/
theorem addresses_of_peer_spec :
    ∀ (r : Rpc) (p : PeerId), r.addresses_of_peer p = ([], r) := by
  intro r p
  rfl

/-- Claim C9: every entry point appends zero or one action (`Op.enqueued`
has length at most one) to the end of the queue, never removing,
reordering or modifying what is already queued — the prior contents
remain a prefix; only `poll` removes, and it removes exactly the head,
leaving the tail (a suffix of the prior queue). -/
theorem append_only_spec :
    (∀ op : Op, (Op.enqueued op).length ≤ 1) ∧
    (∀ (r : Rpc) (p : PeerId) (e : RPCEvent),
        (r.send_rpc p e).events = r.events ++ Op.enqueued (Op.opSendRpc p e)) ∧
    (∀ (r : Rpc) (p : PeerId) (cp : ConnectedPoint),
        (r.inject_connected p cp).events =
          r.events ++ Op.enqueued (Op.opConnected p cp)) ∧
    (∀ (r : Rpc) (p : PeerId) (cp : ConnectedPoint),
        (r.inject_disconnected p cp).events =
          r.events ++ Op.enqueued (Op.opDisconnected p cp)) ∧
    (∀ (r : Rpc) (p : PeerId) (ev : HandlerEvent),
        (r.inject_node_event p ev).events =
          r.events ++ Op.enqueued (Op.opNodeEvent p ev)) ∧
    (∀ r : Rpc,
        (r.poll).1.events = r.events.tail ∧ (r.poll).1.events <:+ r.events) := by
  refine ⟨?_, ?_, ?_, ?_, ?_, ?_⟩
  · intro op
    cases op with
    | opSendRpc p e => simp [Op.enqueued]
    | opConnected p cp => cases cp <;> simp [Op.enqueued]
    | opDisconnected p cp => simp [Op.enqueued]
    | opNodeEvent p ev => cases ev <;> simp [Op.enqueued]
    | opPoll => simp [Op.enqueued]
  · intro r p e
    rfl
  · intro r p cp
    cases cp <;> simp [Rpc.inject_connected, Op.enqueued]
  · intro r p cp
    simp [Rpc.inject_disconnected, Op.enqueued]
  · intro r p ev
    cases ev <;> simp [Rpc.inject_node_event, Op.enqueued]
  · intro r
    obtain ⟨evs⟩ := r
    cases evs with
    | nil => exact ⟨rfl, List.suffix_refl _⟩
    | cons a rest =>
        refine ⟨rfl, ?_⟩
        simp [Rpc.poll]

/-- Claim C10: the `From` conversions feeding the handler-outcome type:
converting an `RPCEvent` always yields `Rx` of that exact event,
converting `()` always yields `Sent`, and neither conversion ever
produces the other outcome kind. -/
theorem handler_event_from_spec :
    (∀ e : RPCEvent, HandlerEvent.fromRPCEvent e = HandlerEvent.Rx e) ∧
    (∀ u : Unit, HandlerEvent.fromUnit u = HandlerEvent.Sent) ∧
    (∀ e : RPCEvent, HandlerEvent.fromRPCEvent e ≠ HandlerEvent.Sent) ∧
    (∀ (u : Unit) (e : RPCEvent), HandlerEvent.fromUnit u ≠ HandlerEvent.Rx e) := by
  refine ⟨fun e => rfl, fun u => rfl, fun e h => ?_, fun u e h => ?_⟩
  · exact HandlerEvent.noConfusion h
  · exact HandlerEvent.noConfusion h
